import Mathlib

set_option maxHeartbeats 1000000

/-!
Verification of the `version` command of the `@yarnpkg/plugin-version` plugin
(`packages/plugin-version/sources/commands/version.ts`).

The command itself (`execute`, the `schema` strategy validation, and the
`acceptedStrategies` set) is embedded directly from the source.  The helpers it
imports from `../versionUtils` (`Decision`, `applyStrategy`, `suggestStrategy`,
`resolveVersionFiles`, `openVersionFile`) are not part of the source tree and
are modelled from the specification, as are the relevant parts of the external
`semver` npm package (version parsing, formatting and comparison).

I/O effects performed by `execute` (opening the version file, writing the
strategy, saving, triggering `yarn version apply`) are recorded as an ordered
event trace; an invocation that throws performs none of them, which mirrors the
source where every `throw` happens before `openVersionFile` is reached.
-/

deriving instance DecidableEq for Except

namespace Berry

/-- A semantic-version prerelease identifier: numeric, or alphanumeric kept as
a raw string — the two identifier classes of the semver grammar implemented by
the `semver` npm package. -/
inductive PreId where
  | num (n : Nat)
  | str (s : String)
deriving DecidableEq

/-- A parsed semantic version.  Build metadata is validated during parsing but
dropped, matching the fact that the `semver` package ignores it both when
formatting and when comparing versions. -/
structure SemVer where
  major : Nat
  minor : Nat
  patch : Nat
  prerelease : List PreId
deriving DecidableEq

/-- Value of an ASCII digit character. -/
def digitVal (c : Char) : Nat := c.toNat - 48

/-- Characters allowed in semver prerelease/build identifiers. -/
def isIdentChar (c : Char) : Bool := c.isDigit || c.isAlpha || c == '-'

/-- Digits to the natural number they denote. -/
def charsToNat (ds : List Char) : Nat := ds.foldl (fun n c => n * 10 + digitVal c) 0

/-- Parse a semver numeric identifier (digits, no leading zero) from the head
of a character list, returning the value and the rest of the input. -/
def parseNum (cs : List Char) : Option (Nat × List Char) :=
  match cs.takeWhile Char.isDigit with
  | [] => none
  | d :: ds =>
    if d == '0' && !ds.isEmpty then none
    else some (charsToNat (d :: ds), cs.dropWhile Char.isDigit)

/-- Split a character list on dots. -/
def splitOnDot : List Char → List (List Char)
  | [] => [[]]
  | c :: rest =>
    if c == '.' then [] :: splitOnDot rest
    else
      match splitOnDot rest with
      | [] => [[c]]
      | g :: gs => (c :: g) :: gs

/-- Split a character list at the first plus sign, if any. -/
def splitAtPlus : List Char → (List Char × Option (List Char))
  | [] => ([], none)
  | c :: rest =>
    if c == '+' then ([], some rest)
    else
      let r := splitAtPlus rest
      (c :: r.fst, r.snd)

/-- Parse one prerelease identifier: nonempty, identifier characters only,
and an all-digit identifier must not have a leading zero. -/
def parsePreId (cs : List Char) : Option PreId :=
  if cs.isEmpty then none
  else if !(cs.all isIdentChar) then none
  else if cs.all Char.isDigit then
    match cs with
    | '0' :: _ :: _ => none
    | _ => some (.num (charsToNat cs))
  else some (.str (String.mk cs))

/-- A valid build identifier: nonempty, identifier characters only. -/
def validBuildId (cs : List Char) : Bool := !cs.isEmpty && cs.all isIdentChar

/-- Parse the optional `-prerelease` and `+build` suffix of a version. -/
def parseSuffix (cs : List Char) : Option (List PreId) :=
  match cs with
  | [] => some []
  | '-' :: rest =>
    let pb := splitAtPlus rest
    match (splitOnDot pb.fst).mapM parsePreId with
    | none => none
    | some pre =>
      match pb.snd with
      | none => some pre
      | some b => if (splitOnDot b).all validBuildId then some pre else none
  | '+' :: rest => if (splitOnDot rest).all validBuildId then some [] else none
  | _ => none

/-- Parse a full semver version from characters, following the strict grammar
of the `semver` npm package (`v?MAJOR.MINOR.PATCH(-pre)?(+build)?`). -/
def parseSemVerChars (cs0 : List Char) : Option SemVer :=
  let cs := match cs0 with
    | 'v' :: rest => rest
    | _ => cs0
  match parseNum cs with
  | none => none
  | some (ma, r1) =>
    match r1 with
    | '.' :: r2 =>
      match parseNum r2 with
      | none => none
      | some (mi, r3) =>
        match r3 with
        | '.' :: r4 =>
          match parseNum r4 with
          | none => none
          | some (pa, r5) =>
            match parseSuffix r5 with
            | none => none
            | some pre => some ⟨ma, mi, pa, pre⟩
        | _ => none
    | _ => none

/-- Modelled from the spec: `semver.valid` of the `semver` npm package, as a
parser.  `semver.valid(s) !== null` corresponds to `(parseSemVer s).isSome`. -/
def parseSemVer (s : String) : Option SemVer := parseSemVerChars s.data

/-- Compare two prerelease identifiers: numeric identifiers sort below
alphanumeric ones, numeric ones compare numerically, strings lexically. -/
def cmpPreId : PreId → PreId → Ordering
  | .num a, .num b => compare a b
  | .num _, .str _ => .lt
  | .str _, .num _ => .gt
  | .str a, .str b => compare a b

/-- Compare two prerelease identifier lists lexicographically; a strict
initial segment sorts first. -/
def cmpPreList : List PreId → List PreId → Ordering
  | [], [] => .eq
  | [], _ :: _ => .lt
  | _ :: _, [] => .gt
  | a :: la, b :: lb =>
    match cmpPreId a b with
    | .eq => cmpPreList la lb
    | o => o

/-- Modelled from the spec: semantic-version ordering as implemented by
`semver.compare` — major, minor, patch, then prerelease, where a release
(empty prerelease) sorts above any prerelease of the same triple. -/
def compareSemVer (a b : SemVer) : Ordering :=
  match compare a.major b.major with
  | .eq =>
    match compare a.minor b.minor with
    | .eq =>
      match compare a.patch b.patch with
      | .eq =>
        match a.prerelease, b.prerelease with
        | [], [] => .eq
        | [], _ :: _ => .gt
        | _ :: _, [] => .lt
        | pa, pb => cmpPreList pa pb
      | o => o
    | o => o
  | o => o

/-- Modelled from the spec: `semver.lt`. -/
def semverLtB (a b : SemVer) : Bool :=
  match compareSemVer a b with
  | .lt => true
  | _ => false

/-- The larger of two versions under semantic-version ordering. -/
def semverMax (a b : SemVer) : SemVer := if semverLtB a b then b else a

/-- Render a prerelease identifier. -/
def renderPreId : PreId → String
  | .num n => toString n
  | .str s => s

/-- Join strings with dots. -/
def joinDots : List String → String
  | [] => ""
  | [x] => x
  | x :: xs => x ++ "." ++ joinDots xs

/-- Modelled from the spec: formatting a version back to a string, as the
`semver` npm package does (build metadata is not printed). -/
def renderSemVer (v : SemVer) : String :=
  toString v.major ++ "." ++ toString v.minor ++ "." ++ toString v.patch ++
    (if v.prerelease.isEmpty then ""
     else "-" ++ joinDots (v.prerelease.map renderPreId))

/-- Modelled from the spec: `versionUtils.Decision`, the closed strategy set
`{major, minor, patch, premajor, preminor, prepatch, prerelease, decline}`
plus the sentinel `undecided` (§3 of the spec). -/
inductive Decision where
  | undecided
  | decline
  | major
  | minor
  | patch
  | premajor
  | preminor
  | prepatch
  | prerelease
deriving DecidableEq, BEq

/-- The string label of each decision token. -/
def decisionStr : Decision → String
  | .undecided => "undecided"
  | .decline => "decline"
  | .major => "major"
  | .minor => "minor"
  | .patch => "patch"
  | .premajor => "premajor"
  | .preminor => "preminor"
  | .prepatch => "prepatch"
  | .prerelease => "prerelease"

/-- All values of the `Decision` enumeration. -/
def allDecisions : List Decision :=
  [.undecided, .decline, .major, .minor, .patch, .premajor, .preminor, .prepatch, .prerelease]

/-- From `version.ts` lines 9-11: the accepted strategies are every `Decision`
value except `UNDECIDED`, as strings. -/
def acceptedStrategies : List String :=
  (allDecisions.filter (fun d => !(d == Decision.undecided))).map decisionStr

/-- From `version.ts` lines 27-36: the `schema` test on the `strategy`
argument — accepted when `semver.valid(range) !== null` or the string is one
of the accepted strategies. -/
def schemaTest (range : String) : Bool :=
  (parseSemVer range).isSome || acceptedStrategies.contains range

/-- Operators a primitive semver range comparator may start with. -/
def rangeOps : List String := ["^", "~", ">=", "<=", ">", "<", "=", ""]

/-- Strip `pre` from the head of `cs` when it is an initial segment. -/
def stripHead : List Char → List Char → Option (List Char)
  | [], cs => some cs
  | _ :: _, [] => none
  | p :: ps, c :: cs => if p == c then stripHead ps cs else none

/-- Modelled from the spec: "an arbitrary valid semantic-version range string"
(§3) — validity of a range per the `semver` npm package (`validRange`),
restricted to the wildcard `*` and single primitive comparators
(an optional operator followed by a version).  The real grammar accepts
strictly more strings; every string this predicate accepts is a valid range. -/
def isValidRangeApprox (s : String) : Bool :=
  s == "*" ||
    rangeOps.any (fun op =>
      match stripHead op.data s.data with
      | some rest => (parseSemVerChars rest).isSome
      | none => false)

/-- Errors of the modelled `versionUtils` helpers. -/
inductive VErr where
  | invalidBump
  | invalidVersion
deriving DecidableEq

/-- The decision token denoted by a string, if any. -/
def strToDecision (s : String) : Option Decision :=
  allDecisions.find? (fun d => decisionStr d == s)

/-- Increment the trailing numeric component of a prerelease suffix (append a
zero when the last identifier is not numeric). -/
def bumpPre (pre : List PreId) : List PreId :=
  match pre.getLast? with
  | some (.num n) => pre.dropLast ++ [.num (n + 1)]
  | _ => pre ++ [.num 0]

/-- Modelled from the spec (§4.1): the effect of each enumerated strategy
token on a current version.  `major`/`minor`/`patch` increment the component,
zero the lower ones and strip any prerelease suffix; the `pre*` variants
additionally append `-0`; `prerelease` increments the trailing numeric
prerelease component, or bumps patch and appends `-0` when the current
version carries no prerelease suffix; `decline` leaves the version unchanged
(`undecided` is never applied and also leaves it unchanged). -/
def applyDecision (cur : SemVer) : Decision → SemVer
  | .major => ⟨cur.major + 1, 0, 0, []⟩
  | .minor => ⟨cur.major, cur.minor + 1, 0, []⟩
  | .patch => ⟨cur.major, cur.minor, cur.patch + 1, []⟩
  | .premajor => ⟨cur.major + 1, 0, 0, [.num 0]⟩
  | .preminor => ⟨cur.major, cur.minor + 1, 0, [.num 0]⟩
  | .prepatch => ⟨cur.major, cur.minor, cur.patch + 1, [.num 0]⟩
  | .prerelease =>
    if cur.prerelease.isEmpty then ⟨cur.major, cur.minor, cur.patch + 1, [.num 0]⟩
    else ⟨cur.major, cur.minor, cur.patch, bumpPre cur.prerelease⟩
  | .decline => cur
  | .undecided => cur

/-- Modelled from the spec: `versionUtils.applyStrategy` (§4.1).  A strategy
that is a valid semver string becomes the result verbatim; an enumerated
token is applied to the current version, failing with `InvalidBumpError` when
there is no (parseable) current version; anything else fails with
`InvalidVersionError` (the sentinel `undecided` is not an applicable bump and
is treated as unrecognized). -/
def applyStrategy (current : Option String) (strategy : String) : Except VErr SemVer :=
  match parseSemVer strategy with
  | some v => .ok v
  | none =>
    match strToDecision strategy with
    | some .undecided => .error .invalidVersion
    | some d =>
      match current.bind parseSemVer with
      | none => .error .invalidBump
      | some cur => .ok (applyDecision cur d)
    | none => .error .invalidVersion

/-- The tokens inspected by `suggestStrategy`: major, minor, patch and their
`pre*` variants (§4.1 of the spec). -/
def suggestDecisions : List Decision :=
  [.major, .minor, .patch, .premajor, .preminor, .prepatch]

/-- Modelled from the spec: `versionUtils.suggestStrategy` (§4.1) — inspect
whether the target equals the result of applying each enumerated token to the
current version; when exactly one token produces that exact string, offer
that token's label, otherwise offer nothing. -/
def suggestStrategy (current : SemVer) (target : String) : Option String :=
  match suggestDecisions.filter
      (fun d => renderSemVer (applyDecision current d) == target) with
  | [d] => some (decisionStr d)
  | _ => none

/-- `suggestStrategy` lifted to a raw current-version string: an unparseable
current version yields no suggestion. -/
def suggestStrategyStr (current target : String) : Option String :=
  (parseSemVer current).bind (fun c => suggestStrategy c target)

/-- The merged ledger: package identifier to resolved candidate version. -/
abbrev Ledger := List (String × SemVer)

/-- Look a package up in a ledger. -/
def ledgerGet (L : Ledger) (p : String) : Option SemVer :=
  match L.find? (fun e => e.fst == p) with
  | some e => some e.snd
  | none => none

/-- Insert a candidate version for a package, keeping the semver-maximum of
the existing candidate and the new one when the package is already present. -/
def ledgerInsertMax : Ledger → String → SemVer → Ledger
  | [], p, v => [(p, v)]
  | (q, w) :: rest, p, v =>
    if q == p then (q, semverMax w v) :: rest
    else (q, w) :: ledgerInsertMax rest p v

/-- Fold one record entry into the merged ledger: `decline` and `undecided`
entries contribute no candidate version; any other strategy is applied to the
package's current version and the per-package maximum is kept. -/
def resolveEntry (lookupCurrent : String → Option String) (L : Ledger)
    (e : String × String) : Except VErr Ledger :=
  if e.snd == decisionStr Decision.decline || e.snd == decisionStr Decision.undecided then
    .ok L
  else
    match applyStrategy (lookupCurrent e.fst) e.snd with
    | .error err => .error err
    | .ok v => .ok (ledgerInsertMax L e.fst v)

/-- Fold a list of record entries into a ledger, stopping at the first
erroring entry. -/
def resolveEntries (lookupCurrent : String → Option String) :
    Ledger → List (String × String) → Except VErr Ledger
  | L, [] => .ok L
  | L, e :: rest =>
    match resolveEntry lookupCurrent L e with
    | .error err => .error err
    | .ok L2 => resolveEntries lookupCurrent L2 rest

/-- Modelled from the spec: `versionUtils.resolveVersionFiles` (§4.3) —
discover every pending release record, apply each record's strategy for each
package against that package's current version, and keep, per package, the
maximum candidate version under semantic-version ordering. -/
def resolveVersionFiles (records : List (List (String × String)))
    (lookupCurrent : String → Option String) : Except VErr Ledger :=
  resolveEntries lookupCurrent [] records.flatten

/-- The candidate version one record entry contributes: `decline` and
`undecided` entries contribute none; any other strategy contributes the
result of applying it to the package's current version (none when the
application errors — a case a successful resolution never reaches). -/
def entryCandidate (lookupCurrent : String → Option String) (e : String × String) :
    Option SemVer :=
  if e.snd == decisionStr Decision.decline || e.snd == decisionStr Decision.undecided then
    none
  else
    match applyStrategy (lookupCurrent e.fst) e.snd with
    | .error _ => none
    | .ok v => some v

/-- Every candidate version the record entries contribute for package `p`,
in discovery order. -/
def candidatesOf (lookupCurrent : String → Option String)
    (entries : List (String × String)) (p : String) : List SemVer :=
  entries.filterMap (fun e => if e.fst == p then entryCandidate lookupCurrent e else none)

/-- Iterated semver maximum of a list of versions on top of an optional
initial value. -/
def semverMaxList : Option SemVer → List SemVer → Option SemVer
  | acc, [] => acc
  | none, v :: rest => semverMaxList (some v) rest
  | some w, v :: rest => semverMaxList (some (semverMax w v)) rest

/-- The environment a `yarn version` invocation runs in: the
`preferDeferredVersions` configuration value, the pending release records of
the project, the current manifest version of every package, and the identifier
of the current workspace.  `workspace.manifest.version` is
`lookupCurrent wsId`. -/
structure ExecEnv where
  preferDeferredVersions : Bool
  records : List (List (String × String))
  lookupCurrent : String → Option String
  wsId : String

/-- The I/O effects `execute` performs after its checks, in order. -/
inductive Ev where
  | openRecord
  | setStrategy (pkg strat : String)
  | saveAll
  | runApply
deriving DecidableEq

/-- The outcome of a successful `execute`: the strategy written into the
record, the resolved deferred flag, and the ordered event trace. -/
structure ExecResult where
  releaseStrategy : String
  deferred : Bool
  events : List Ev
deriving DecidableEq

/-- The `UsageError`s `execute` can throw (`versionUtils` errors surfacing
through the regression check are wrapped in `strategyErr`). -/
inductive ExecErr where
  | cantBumpNoVersion
  | cantBumpInvalidSemver (v : String)
  | regression (stored : SemVer)
  | strategyErr (e : VErr)
deriving DecidableEq

/-- From `version.ts` lines 72-76: the deferred flag defaults to the
`preferDeferredVersions` configuration, is set by `--deferred` and then
cleared by `--immediate`. -/
def resolveDeferredFlag (prefer dflag iflag : Bool) : Bool :=
  if iflag then false else if dflag then true else prefer

/-- From `version.ts` lines 78-107: resolve the release strategy to store.  A
valid-semver strategy with a non-null manifest version goes through
`suggestStrategy` and falls back to the literal string; with a null manifest
version it is kept verbatim.  A non-semver strategy other than `decline`
requires a non-null, valid-semver manifest version, else a `UsageError` is
thrown. -/
def computeReleaseStrategy (current : Option String) (strategy : String) :
    Except ExecErr String :=
  if (parseSemVer strategy).isSome then
    match current with
    | some cur =>
      match suggestStrategyStr cur strategy with
      | some sug => .ok sug
      | none => .ok strategy
    | none => .ok strategy
  else
    if strategy == decisionStr Decision.decline then .ok strategy
    else
      match current with
      | none => .error .cantBumpNoVersion
      | some cur =>
        if (parseSemVer cur).isSome then .ok strategy
        else .error (.cantBumpInvalidSemver cur)

/-- From `version.ts` lines 109-119: when the resolved deferred flag is
false, reconsult the merged ledger; when it already holds a candidate for the
current workspace and the newly computed candidate is semver-lower, throw a
`UsageError` (the regression error). -/
def regressionCheck (env : ExecEnv) (deferred : Bool) (releaseStrategy : String) :
    Except ExecErr Unit :=
  if deferred then .ok ()
  else
    match resolveVersionFiles env.records env.lookupCurrent with
    | .error e => .error (.strategyErr e)
    | .ok releases =>
      match ledgerGet releases env.wsId with
      | none => .ok ()
      | some storedVersion =>
        match applyStrategy (env.lookupCurrent env.wsId) releaseStrategy with
        | .error e => .error (.strategyErr e)
        | .ok thisVersion =>
          if semverLtB thisVersion storedVersion then .error (.regression storedVersion)
          else .ok ()

/-- From `version.ts` lines 65-128: the body of `VersionCommand.execute`.  An
error result models a thrown `UsageError`, before any record is opened or
written; a successful result carries the ordered trace of effects: open the
version file, set the strategy for the current workspace, save, and — only
when the resolved deferred flag is false — trigger `yarn version apply`. -/
def execute (env : ExecEnv) (strategy : String) (dflag iflag : Bool) :
    Except ExecErr ExecResult :=
  match computeReleaseStrategy (env.lookupCurrent env.wsId) strategy with
  | .error e => .error e
  | .ok rs =>
    match regressionCheck env (resolveDeferredFlag env.preferDeferredVersions dflag iflag) rs with
    | .error e => .error e
    | .ok _ =>
      .ok ⟨rs, resolveDeferredFlag env.preferDeferredVersions dflag iflag,
        [Ev.openRecord, Ev.setStrategy env.wsId rs, Ev.saveAll] ++
          (if resolveDeferredFlag env.preferDeferredVersions dflag iflag then []
           else [Ev.runApply])⟩

example : parseSemVer "1.2.3" = some ⟨1, 2, 3, []⟩ := by decide
example : parseSemVer "1.2.3-rc.1" = some ⟨1, 2, 3, [.str "rc", .num 1]⟩ := by decide
example : parseSemVer "major" = none := by decide
example : parseSemVer "^1.2.3" = none := by decide
example : parseSemVer "1.2" = none := by decide
example : parseSemVer "01.2.3" = none := by decide
example : semverLtB ⟨1, 9, 0, []⟩ ⟨2, 0, 0, []⟩ = true := by decide
example : semverLtB ⟨1, 0, 0, [.num 0]⟩ ⟨1, 0, 0, []⟩ = true := by decide
example : renderSemVer ⟨1, 0, 1, [.num 0]⟩ = "1.0.1-0" := by decide
example : acceptedStrategies =
    ["decline", "major", "minor", "patch", "premajor", "preminor", "prepatch", "prerelease"] :=
  rfl
example : schemaTest "minor" = true := by decide
example : schemaTest "1.2.3" = true := by decide
example : schemaTest "undecided" = false := by decide
example : schemaTest "^1.2.3" = false := by decide
example : isValidRangeApprox "^1.2.3" = true := by decide
example : applyStrategy (some "1.0.0") "minor" = .ok ⟨1, 1, 0, []⟩ := by decide
example : applyStrategy (some "1.0.0") "patch" = .ok ⟨1, 0, 1, []⟩ := by decide
example : applyStrategy none "major" = .error .invalidBump := by decide
example : applyStrategy none "1.2.3" = .ok ⟨1, 2, 3, []⟩ := by decide
example : suggestStrategyStr "1.0.0" "2.0.0" = some "major" := by decide
example : suggestStrategyStr "1.0.0" "1.0.5" = none := by decide
example : resolveVersionFiles [[("P", "minor")], [("P", "patch")]] (fun _ => some "1.0.0") =
    .ok [("P", ⟨1, 1, 0, []⟩)] := by decide
example :
    execute ⟨false, [[("P", "2.0.0")]], (fun _ => some "1.0.0"), "P"⟩ "1.9.0" false false =
      .error (.regression ⟨2, 0, 0, []⟩) := by decide
example :
    execute ⟨false, [[("P", "2.0.0")]], (fun _ => some "1.0.0"), "P"⟩ "1.9.0" true false =
      .ok ⟨"1.9.0", true, [.openRecord, .setStrategy "P" "1.9.0", .saveAll]⟩ := by decide
example :
    execute ⟨false, [], (fun _ => some "1.0.0"), "P"⟩ "2.0.0" false false =
      .ok ⟨"major", false, [.openRecord, .setStrategy "P" "major", .saveAll, .runApply]⟩ := by
  decide
example :
    execute ⟨false, [], (fun _ => none), "P"⟩ "decline" false false =
      .ok ⟨"decline", false, [.openRecord, .setStrategy "P" "decline", .saveAll, .runApply]⟩ := by
  decide
example :
    execute ⟨false, [], (fun _ => none), "P"⟩ "minor" false false =
      .error .cantBumpNoVersion := by decide
example :
    execute ⟨false, [], (fun _ => some "bogus"), "P"⟩ "minor" false false =
      .error (.cantBumpInvalidSemver "bogus") := by decide

/-- Any successful `execute` run resolved its strategy, passed the regression
check, carries the resolved deferred flag, and performed exactly the trace
open-record, set-strategy, save-all, then `yarn version apply` when not
deferred. -/
theorem execute_ok_shape (env : ExecEnv) (s : String) (d i : Bool) (r : ExecResult)
    (h : execute env s d i = .ok r) :
    computeReleaseStrategy (env.lookupCurrent env.wsId) s = .ok r.releaseStrategy ∧
    regressionCheck env (resolveDeferredFlag env.preferDeferredVersions d i)
      r.releaseStrategy = .ok () ∧
    r.deferred = resolveDeferredFlag env.preferDeferredVersions d i ∧
    r.events = [Ev.openRecord, Ev.setStrategy env.wsId r.releaseStrategy, Ev.saveAll] ++
      (if r.deferred then [] else [Ev.runApply]) := by
  unfold execute at h
  split at h
  · exact absurd h (by simp)
  next rs heq =>
    split at h
    · exact absurd h (by simp)
    next u heq2 =>
      cases u
      simp only [Except.ok.injEq] at h
      subst h
      exact ⟨heq, heq2, rfl, rfl⟩

/-- A strategy-resolution error is the command's result, thrown before any
record is opened or written. -/
theorem execute_error_of_computeErr (env : ExecEnv) (s : String) (d i : Bool) (e : ExecErr)
    (h : computeReleaseStrategy (env.lookupCurrent env.wsId) s = .error e) :
    execute env s d i = .error e := by
  unfold execute
  rw [h]

/-- The accepted strategies, as a literal list. -/
theorem acceptedStrategies_eq : acceptedStrategies =
    ["decline", "major", "minor", "patch", "premajor", "preminor", "prepatch", "prerelease"] :=
  rfl

/-- C9: the resolved deferred flag equals the `preferDeferredVersions`
configuration by default, is forced to true by `--deferred`, forced to false
by `--immediate` — with `--immediate` winning when both are passed — and is
the flag every successful invocation reports. -/
theorem deferred_flag_semantics :
    (∀ p, resolveDeferredFlag p false false = p) ∧
    (∀ p, resolveDeferredFlag p true false = true) ∧
    (∀ p d, resolveDeferredFlag p d true = false) ∧
    (∀ (env : ExecEnv) (s : String) (d i : Bool) (r : ExecResult),
      execute env s d i = .ok r →
      r.deferred = resolveDeferredFlag env.preferDeferredVersions d i) :=
  ⟨by decide, by decide, by decide,
   fun env s d i r h => (execute_ok_shape env s d i r h).2.2.1⟩

/-- C9 witness: concrete flag resolutions, and a run with both `--deferred`
and `--immediate` where `--immediate` wins. -/
theorem deferred_flag_semantics_witness :
    resolveDeferredFlag false false false = false ∧
    resolveDeferredFlag false true false = true ∧
    resolveDeferredFlag true true true = false ∧
    (⟨"patch", false,
        [Ev.openRecord, Ev.setStrategy "P" "patch", Ev.saveAll, Ev.runApply]⟩ :
      ExecResult).deferred = resolveDeferredFlag true true true :=
  ⟨deferred_flag_semantics.1 false, deferred_flag_semantics.2.1 false,
   deferred_flag_semantics.2.2.1 true true,
   deferred_flag_semantics.2.2.2 ⟨true, [], (fun _ => some "1.0.0"), "P"⟩ "patch" true true
     ⟨"patch", false, [Ev.openRecord, Ev.setStrategy "P" "patch", Ev.saveAll, Ev.runApply]⟩
     (by decide)⟩

/-- C7: every successful invocation performed exactly the trace open-record,
set-strategy, save-all, then optionally the apply trigger; the apply trigger
fires iff the resolved deferred flag is false, and only after `saveAll`. -/
theorem apply_triggered_iff_immediate (env : ExecEnv) (s : String) (d i : Bool)
    (r : ExecResult) (h : execute env s d i = .ok r) :
    r.events = [Ev.openRecord, Ev.setStrategy env.wsId r.releaseStrategy, Ev.saveAll] ++
      (if r.deferred then [] else [Ev.runApply]) ∧
    ((Ev.runApply ∈ r.events) ↔ r.deferred = false) := by
  obtain ⟨-, -, -, hev⟩ := execute_ok_shape env s d i r h
  refine ⟨hev, ?_⟩
  rw [hev]
  cases hd : r.deferred <;> simp

/-- C7 witness: an immediate run where the apply trigger fires right after
`saveAll`. -/
theorem apply_triggered_iff_immediate_witness :
    ([Ev.openRecord, Ev.setStrategy "P" "patch", Ev.saveAll, Ev.runApply] =
      [Ev.openRecord, Ev.setStrategy "P" "patch", Ev.saveAll] ++
        (if false then ([] : List Ev) else [Ev.runApply])) ∧
    ((Ev.runApply ∈ [Ev.openRecord, Ev.setStrategy "P" "patch", Ev.saveAll, Ev.runApply]) ↔
      (false = false)) :=
  apply_triggered_iff_immediate ⟨true, [], (fun _ => some "1.0.0"), "P"⟩ "patch" false true
    ⟨"patch", false, [Ev.openRecord, Ev.setStrategy "P" "patch", Ev.saveAll, Ev.runApply]⟩
    (by decide)

/-- C6 (counterexample): `^1.2.3` is a valid semver range (a caret
comparator) but is neither an accepted strategy token nor accepted by the
schema test, refuting the claim that every valid range string is accepted. -/
theorem schema_range_cex :
    ¬ (schemaTest "^1.2.3" = true ↔
        ("^1.2.3" ∈ acceptedStrategies ∨ isValidRangeApprox "^1.2.3" = true)) := by
  decide

/-- C6 (amended): the schema validation accepts a string iff it is one of the
enumerated strategy tokens (`undecided` excluded) or a syntactically valid
semantic-version string — an exact version, not an arbitrary range. -/
theorem schema_accepts_token_or_version (s : String) :
    schemaTest s = true ↔ ((parseSemVer s).isSome = true ∨ s ∈ acceptedStrategies) := by
  simp [schemaTest, List.contains, List.elem_iff]

/-- C4: when the strategy argument is a valid semver string and the current
manifest version is non-null, the strategy written into the record is the
token suggested by `suggestStrategy` when that suggestion is non-null, and
the literal version string otherwise. -/
theorem semver_strategy_suggestion (env : ExecEnv) (s : String) (d i : Bool) (cur : String)
    (r : ExecResult)
    (h0 : env.lookupCurrent env.wsId = some cur)
    (h1 : (parseSemVer s).isSome = true)
    (h : execute env s d i = .ok r) :
    r.releaseStrategy = (suggestStrategyStr cur s).getD s ∧
    Ev.setStrategy env.wsId r.releaseStrategy ∈ r.events := by
  obtain ⟨hc, -, -, hev⟩ := execute_ok_shape env s d i r h
  rw [h0] at hc
  unfold computeReleaseStrategy at hc
  rw [h1] at hc
  simp only [if_true] at hc
  refine ⟨?_, by rw [hev]; simp⟩
  cases hs : suggestStrategyStr cur s with
  | some sug => rw [hs] at hc; simp only [Except.ok.injEq] at hc; rw [← hc]; rfl
  | none => rw [hs] at hc; simp only [Except.ok.injEq] at hc; rw [← hc]; rfl

/-- C4 witness: with current version `1.0.0`, the explicit target `2.0.0` is
stored as the suggested token `major`, and `1.9.0` (no token matches) is
stored verbatim. -/
theorem semver_strategy_suggestion_witness :
    (("major" : String) = (suggestStrategyStr "1.0.0" "2.0.0").getD "2.0.0" ∧
      Ev.setStrategy "P" "major" ∈
        [Ev.openRecord, Ev.setStrategy "P" "major", Ev.saveAll, Ev.runApply]) ∧
    (("1.9.0" : String) = (suggestStrategyStr "1.0.0" "1.9.0").getD "1.9.0" ∧
      Ev.setStrategy "P" "1.9.0" ∈
        [Ev.openRecord, Ev.setStrategy "P" "1.9.0", Ev.saveAll, Ev.runApply]) :=
  ⟨semver_strategy_suggestion ⟨false, [], (fun _ => some "1.0.0"), "P"⟩ "2.0.0" false false
      "1.0.0" ⟨"major", false, [Ev.openRecord, Ev.setStrategy "P" "major", Ev.saveAll, Ev.runApply]⟩
      (by decide) (by decide) (by decide),
   semver_strategy_suggestion ⟨false, [], (fun _ => some "1.0.0"), "P"⟩ "1.9.0" false false
      "1.0.0" ⟨"1.9.0", false, [Ev.openRecord, Ev.setStrategy "P" "1.9.0", Ev.saveAll, Ev.runApply]⟩
      (by decide) (by decide) (by decide)⟩

/-- C5: when the strategy argument is a valid semver string and the current
manifest version is null, strategy resolution succeeds with the literal
version string, which is stored verbatim into the record. -/
theorem semver_strategy_verbatim_unversioned (env : ExecEnv) (s : String) (d i : Bool)
    (r : ExecResult)
    (h0 : env.lookupCurrent env.wsId = none)
    (h1 : (parseSemVer s).isSome = true)
    (h : execute env s d i = .ok r) :
    computeReleaseStrategy (env.lookupCurrent env.wsId) s = .ok s ∧
    r.releaseStrategy = s ∧ Ev.setStrategy env.wsId s ∈ r.events := by
  obtain ⟨hc, -, -, hev⟩ := execute_ok_shape env s d i r h
  have hcs : computeReleaseStrategy (env.lookupCurrent env.wsId) s = .ok s := by
    rw [h0]
    unfold computeReleaseStrategy
    rw [h1]
    simp only [if_true]
  refine ⟨hcs, ?_, ?_⟩
  · rw [hcs] at hc
    simp only [Except.ok.injEq] at hc
    exact hc.symm
  · rw [hcs] at hc
    simp only [Except.ok.injEq] at hc
    rw [hev, hc]
    simp

/-- C5 witness: an unversioned workspace given the explicit version `1.9.0`
stores it verbatim. -/
theorem semver_strategy_verbatim_unversioned_witness :
    computeReleaseStrategy ((fun _ => (none : Option String)) "P") "1.9.0" = .ok "1.9.0" ∧
    ("1.9.0" : String) = "1.9.0" ∧
    Ev.setStrategy "P" "1.9.0" ∈
      [Ev.openRecord, Ev.setStrategy "P" "1.9.0", Ev.saveAll, Ev.runApply] :=
  semver_strategy_verbatim_unversioned ⟨false, [], (fun _ => none), "P"⟩ "1.9.0" false false
    ⟨"1.9.0", false, [Ev.openRecord, Ev.setStrategy "P" "1.9.0", Ev.saveAll, Ev.runApply]⟩
    (by decide) (by decide) (by decide)

/-- C8: when the resolved deferred flag is true, a resolved strategy is
written and saved without ever consulting the merged ledger — the result does
not depend on the pending records, so a candidate lower than an
already-pending merged version is accepted without error. -/
theorem deferred_skips_ledger (env : ExecEnv) (s : String) (d i : Bool) (rs : String)
    (hdef : resolveDeferredFlag env.preferDeferredVersions d i = true)
    (hc : computeReleaseStrategy (env.lookupCurrent env.wsId) s = .ok rs) :
    execute env s d i = .ok ⟨rs, true, [Ev.openRecord, Ev.setStrategy env.wsId rs, Ev.saveAll]⟩ := by
  unfold execute
  rw [hc, hdef]
  simp [regressionCheck]

/-- C8 witness: with the merged ledger already committing `P` to `2.0.0`, a
deferred request for `1.9.0` (semver-lower) succeeds and is written. -/
theorem deferred_skips_ledger_witness :
    resolveVersionFiles [[("P", "2.0.0")]] (fun _ => some "1.0.0") =
      .ok [("P", ⟨2, 0, 0, []⟩)] ∧
    applyStrategy (some "1.0.0") "1.9.0" = .ok ⟨1, 9, 0, []⟩ ∧
    semverLtB ⟨1, 9, 0, []⟩ ⟨2, 0, 0, []⟩ = true ∧
    execute ⟨true, [[("P", "2.0.0")]], (fun _ => some "1.0.0"), "P"⟩ "1.9.0" false false =
      .ok ⟨"1.9.0", true, [Ev.openRecord, Ev.setStrategy "P" "1.9.0", Ev.saveAll]⟩ :=
  ⟨by decide, by decide, by decide,
   deferred_skips_ledger ⟨true, [[("P", "2.0.0")]], (fun _ => some "1.0.0"), "P"⟩ "1.9.0"
     false false "1.9.0" (by decide) (by decide)⟩

/-- C1 (counterexample): a deferred invocation writes a decision whose
computed candidate (`1.9.0`) is semver-lower than the merged ledger's pending
candidate (`2.0.0`) yet succeeds, so the regression rejection does not hold
of every invocation that writes a decision. -/
theorem regression_deferred_cex :
    resolveVersionFiles [[("P", "2.0.0")]] (fun _ => some "1.0.0") =
      .ok [("P", ⟨2, 0, 0, []⟩)] ∧
    computeReleaseStrategy (some "1.0.0") "1.9.0" = .ok "1.9.0" ∧
    applyStrategy (some "1.0.0") "1.9.0" = .ok ⟨1, 9, 0, []⟩ ∧
    semverLtB ⟨1, 9, 0, []⟩ ⟨2, 0, 0, []⟩ = true ∧
    execute ⟨false, [[("P", "2.0.0")]], (fun _ => some "1.0.0"), "P"⟩ "1.9.0" true false =
      .ok ⟨"1.9.0", true, [Ev.openRecord, Ev.setStrategy "P" "1.9.0", Ev.saveAll]⟩ := by
  exact ⟨by decide, by decide, by decide, by decide, by decide⟩

/-- C1 (amended): when the resolved deferred flag is false, a decision whose
newly computed candidate is semver-lower than the merged ledger's pending
candidate for the workspace fails with the regression `UsageError`; the error
is thrown before any record is opened, written or saved. -/
theorem immediate_regression_rejected (env : ExecEnv) (s : String) (d i : Bool)
    (rs : String) (L : Ledger) (stored newV : SemVer)
    (hdef : resolveDeferredFlag env.preferDeferredVersions d i = false)
    (hc : computeReleaseStrategy (env.lookupCurrent env.wsId) s = .ok rs)
    (hres : resolveVersionFiles env.records env.lookupCurrent = .ok L)
    (hget : ledgerGet L env.wsId = some stored)
    (happ : applyStrategy (env.lookupCurrent env.wsId) rs = .ok newV)
    (hlt : semverLtB newV stored = true) :
    execute env s d i = .error (.regression stored) := by
  have hreg : regressionCheck env false rs = .error (.regression stored) := by
    unfold regressionCheck
    simp [hres, hget, happ, hlt]
  unfold execute
  rw [hc, hdef]
  simp [hreg]

/-- C1 (amended) witness: the spec's own scenario — merged ledger committing
`P` to `2.0.0`, a new immediate decision computing to `1.9.0` is rejected. -/
theorem immediate_regression_rejected_witness :
    resolveDeferredFlag false false false = false ∧
    computeReleaseStrategy (some "1.0.0") "1.9.0" = .ok "1.9.0" ∧
    resolveVersionFiles [[("P", "2.0.0")]] (fun _ => some "1.0.0") =
      .ok [("P", ⟨2, 0, 0, []⟩)] ∧
    ledgerGet [("P", ⟨2, 0, 0, []⟩)] "P" = some ⟨2, 0, 0, []⟩ ∧
    applyStrategy (some "1.0.0") "1.9.0" = .ok ⟨1, 9, 0, []⟩ ∧
    semverLtB ⟨1, 9, 0, []⟩ ⟨2, 0, 0, []⟩ = true ∧
    execute ⟨false, [[("P", "2.0.0")]], (fun _ => some "1.0.0"), "P"⟩ "1.9.0" false false =
      .error (.regression ⟨2, 0, 0, []⟩) :=
  ⟨by decide, by decide, by decide, by decide, by decide, by decide,
   immediate_regression_rejected ⟨false, [[("P", "2.0.0")]], (fun _ => some "1.0.0"), "P"⟩
     "1.9.0" false false "1.9.0" [("P", ⟨2, 0, 0, []⟩)] ⟨2, 0, 0, []⟩ ⟨1, 9, 0, []⟩
     (by decide) (by decide) (by decide) (by decide) (by decide) (by decide)⟩

/-- Swapping the arguments of the String comparison swaps the outcome. -/
theorem strCompare_swap (s t : String) : (compare s t).swap = compare t s := by
  rcases h : compare s t with _ | _ | _
  · rw [compare_gt_iff_gt.mpr (compare_lt_iff_lt.mp h)]
    rfl
  · rw [compare_eq_iff_eq.mpr (compare_eq_iff_eq.mp h).symm]
    rfl
  · rw [compare_lt_iff_lt.mpr (compare_gt_iff_gt.mp h)]
    rfl

/-- Prerelease-identifier comparison is reflexive. -/
theorem cmpPreId_self (a : PreId) : cmpPreId a a = .eq := by
  cases a with
  | num n => simp [cmpPreId, Nat.compare_eq_eq]
  | str s => simp [cmpPreId, compare_eq_iff_eq]

/-- Prerelease identifiers comparing equal are equal. -/
theorem cmpPreId_eq : ∀ {a b : PreId}, cmpPreId a b = .eq → a = b
  | .num x, .num y, h => by
      simp only [cmpPreId, Nat.compare_eq_eq] at h
      rw [h]
  | .num _, .str _, h => by simp [cmpPreId] at h
  | .str _, .num _, h => by simp [cmpPreId] at h
  | .str x, .str y, h => by
      simp only [cmpPreId, compare_eq_iff_eq] at h
      rw [h]

/-- Swapping the arguments of `cmpPreId` swaps the outcome. -/
theorem cmpPreId_swap : ∀ (a b : PreId), (cmpPreId a b).swap = cmpPreId b a
  | .num x, .num y => Nat.compare_swap x y
  | .num _, .str _ => rfl
  | .str _, .num _ => rfl
  | .str x, .str y => strCompare_swap x y

/-- `cmpPreId` below-orderings compose transitively. -/
theorem cmpPreId_lt_trans : ∀ {a b c : PreId},
    cmpPreId a b = .lt → cmpPreId b c = .lt → cmpPreId a c = .lt
  | .num x, .num y, .num z, h1, h2 => by
      simp only [cmpPreId, Nat.compare_eq_lt] at h1 h2 ⊢
      exact Nat.lt_trans h1 h2
  | .num _, .num _, .str _, _, _ => rfl
  | .num _, .str _, .num _, _, h2 => by simp [cmpPreId] at h2
  | .num _, .str _, .str _, _, _ => rfl
  | .str _, .num _, _, h1, _ => by simp [cmpPreId] at h1
  | .str _, .str _, .num _, _, h2 => by simp [cmpPreId] at h2
  | .str x, .str y, .str z, h1, h2 => by
      simp only [cmpPreId, compare_lt_iff_lt] at h1 h2 ⊢
      exact lt_trans h1 h2

/-- Prerelease-list comparison is reflexive. -/
theorem cmpPreList_self : ∀ (l : List PreId), cmpPreList l l = .eq
  | [] => rfl
  | a :: l => by
      simp only [cmpPreList, cmpPreId_self a]
      exact cmpPreList_self l

/-- Prerelease lists comparing equal are equal. -/
theorem cmpPreList_eq : ∀ {l1 l2 : List PreId}, cmpPreList l1 l2 = .eq → l1 = l2
  | [], [], _ => rfl
  | [], _ :: _, h => by simp [cmpPreList] at h
  | _ :: _, [], h => by simp [cmpPreList] at h
  | a :: l1, b :: l2, h => by
      simp only [cmpPreList] at h
      rcases hab : cmpPreId a b with _ | _ | _
      · simp [hab] at h
      · simp only [hab] at h
        rw [cmpPreId_eq hab, cmpPreList_eq h]
      · simp [hab] at h

/-- Swapping the arguments of `cmpPreList` swaps the outcome. -/
theorem cmpPreList_swap : ∀ (l1 l2 : List PreId), (cmpPreList l1 l2).swap = cmpPreList l2 l1
  | [], [] => rfl
  | [], _ :: _ => rfl
  | _ :: _, [] => rfl
  | a :: l1, b :: l2 => by
      simp only [cmpPreList]
      rcases hab : cmpPreId a b with _ | _ | _
      · have hba : cmpPreId b a = Ordering.gt := by rw [← cmpPreId_swap, hab]; rfl
        simp [hab, hba, Ordering.swap]
      · have hba : cmpPreId b a = Ordering.eq := by rw [← cmpPreId_swap, hab]; rfl
        simp only [hab, hba]
        exact cmpPreList_swap l1 l2
      · have hba : cmpPreId b a = Ordering.lt := by rw [← cmpPreId_swap, hab]; rfl
        simp [hab, hba, Ordering.swap]

/-- `cmpPreList` below-orderings compose transitively. -/
theorem cmpPreList_lt_trans : ∀ {l1 l2 l3 : List PreId},
    cmpPreList l1 l2 = .lt → cmpPreList l2 l3 = .lt → cmpPreList l1 l3 = .lt
  | [], [], _, h1, _ => by simp [cmpPreList] at h1
  | [], _ :: _, [], _, h2 => by simp [cmpPreList] at h2
  | [], _ :: _, _ :: _, _, _ => rfl
  | _ :: _, [], _, h1, _ => by simp [cmpPreList] at h1
  | _ :: _, _ :: _, [], _, h2 => by simp [cmpPreList] at h2
  | a :: l1, b :: l2, c :: l3, h1, h2 => by
      simp only [cmpPreList] at h1 h2 ⊢
      rcases hab : cmpPreId a b with _ | _ | _
      · rcases hbc : cmpPreId b c with _ | _ | _
        · rw [cmpPreId_lt_trans hab hbc]
        · rw [← cmpPreId_eq hbc, hab]
        · simp [hbc] at h2
      · rcases hbc : cmpPreId b c with _ | _ | _
        · rw [cmpPreId_eq hab, hbc]
        · simp only [hab] at h1
          simp only [hbc] at h2
          rw [cmpPreId_eq hab, cmpPreId_eq hbc, cmpPreId_self]
          exact cmpPreList_lt_trans h1 h2
        · simp [hbc] at h2
      · simp [hab] at h1
/-- Semantic-version comparison is reflexive. -/
theorem compareSemVer_self (a : SemVer) : compareSemVer a a = .eq := by
  obtain ⟨a1, a2, a3, a4⟩ := a
  have h1 : compare a1 a1 = Ordering.eq := Nat.compare_eq_eq.mpr rfl
  have h2 : compare a2 a2 = Ordering.eq := Nat.compare_eq_eq.mpr rfl
  have h3 : compare a3 a3 = Ordering.eq := Nat.compare_eq_eq.mpr rfl
  simp only [compareSemVer, h1, h2, h3]
  cases a4 with
  | nil => rfl
  | cons x l => exact cmpPreList_self (x :: l)

/-- Versions comparing equal are equal. -/
theorem compareSemVer_eq : ∀ {a b : SemVer}, compareSemVer a b = .eq → a = b := by
  intro a b h
  obtain ⟨a1, a2, a3, a4⟩ := a
  obtain ⟨b1, b2, b3, b4⟩ := b
  simp only [compareSemVer] at h
  rcases h1 : compare a1 b1 with _ | _ | _
  · simp [h1] at h
  · have e1 : a1 = b1 := Nat.compare_eq_eq.mp h1
    simp only [h1] at h
    rcases h2 : compare a2 b2 with _ | _ | _
    · simp [h2] at h
    · have e2 : a2 = b2 := Nat.compare_eq_eq.mp h2
      simp only [h2] at h
      rcases h3 : compare a3 b3 with _ | _ | _
      · simp [h3] at h
      · have e3 : a3 = b3 := Nat.compare_eq_eq.mp h3
        simp only [h3] at h
        subst e1
        subst e2
        subst e3
        cases a4 with
        | nil =>
          cases b4 with
          | nil => rfl
          | cons y l2 => simp at h
        | cons x l1 =>
          cases b4 with
          | nil => simp at h
          | cons y l2 =>
            have h4 : cmpPreList (x :: l1) (y :: l2) = .eq := h
            rw [cmpPreList_eq h4]
      · simp [h3] at h
    · simp [h2] at h
  · simp [h1] at h

/-- Swapping the arguments of the semantic-version comparison swaps the
outcome. -/
theorem compareSemVer_swap (a b : SemVer) : (compareSemVer a b).swap = compareSemVer b a := by
  obtain ⟨a1, a2, a3, a4⟩ := a
  obtain ⟨b1, b2, b3, b4⟩ := b
  simp only [compareSemVer]
  rcases h1 : compare a1 b1 with _ | _ | _
  · have g1 : compare b1 a1 = Ordering.gt := by rw [← Nat.compare_swap, h1]; rfl
    simp [h1, g1, Ordering.swap]
  · have g1 : compare b1 a1 = Ordering.eq := by rw [← Nat.compare_swap, h1]; rfl
    simp only [h1, g1]
    rcases h2 : compare a2 b2 with _ | _ | _
    · have g2 : compare b2 a2 = Ordering.gt := by rw [← Nat.compare_swap, h2]; rfl
      simp [h2, g2, Ordering.swap]
    · have g2 : compare b2 a2 = Ordering.eq := by rw [← Nat.compare_swap, h2]; rfl
      simp only [h2, g2]
      rcases h3 : compare a3 b3 with _ | _ | _
      · have g3 : compare b3 a3 = Ordering.gt := by rw [← Nat.compare_swap, h3]; rfl
        simp [h3, g3, Ordering.swap]
      · have g3 : compare b3 a3 = Ordering.eq := by rw [← Nat.compare_swap, h3]; rfl
        simp only [h3, g3]
        cases a4 with
        | nil =>
          cases b4 with
          | nil => rfl
          | cons y l2 => rfl
        | cons x l1 =>
          cases b4 with
          | nil => rfl
          | cons y l2 => exact cmpPreList_swap (x :: l1) (y :: l2)
      · have g3 : compare b3 a3 = Ordering.lt := by rw [← Nat.compare_swap, h3]; rfl
        simp [h3, g3, Ordering.swap]
    · have g2 : compare b2 a2 = Ordering.lt := by rw [← Nat.compare_swap, h2]; rfl
      simp [h2, g2, Ordering.swap]
  · have g1 : compare b1 a1 = Ordering.lt := by rw [← Nat.compare_swap, h1]; rfl
    simp [h1, g1, Ordering.swap]

/-- The semantic-version below-ordering composes transitively. -/
theorem compareSemVer_lt_trans : ∀ {a b c : SemVer},
    compareSemVer a b = .lt → compareSemVer b c = .lt → compareSemVer a c = .lt := by
  intro a b c h1 h2
  obtain ⟨a1, a2, a3, a4⟩ := a
  obtain ⟨b1, b2, b3, b4⟩ := b
  obtain ⟨c1, c2, c3, c4⟩ := c
  simp only [compareSemVer] at h1 h2 ⊢
  rcases hab1 : compare a1 b1 with _ | _ | _
  · rcases hbc1 : compare b1 c1 with _ | _ | _
    · have hac : compare a1 c1 = Ordering.lt :=
        Nat.compare_eq_lt.mpr
          (Nat.lt_trans (Nat.compare_eq_lt.mp hab1) (Nat.compare_eq_lt.mp hbc1))
      simp [hac]
    · have hac : compare a1 c1 = Ordering.lt := by
        rw [← Nat.compare_eq_eq.mp hbc1]
        exact hab1
      simp [hac]
    · simp [hbc1] at h2
  · have e1 : a1 = b1 := Nat.compare_eq_eq.mp hab1
    simp only [hab1] at h1
    rcases hbc1 : compare b1 c1 with _ | _ | _
    · have hac : compare a1 c1 = Ordering.lt := by
        rw [e1]
        exact hbc1
      simp [hac]
    · have hac : compare a1 c1 = Ordering.eq :=
        Nat.compare_eq_eq.mpr (e1.trans (Nat.compare_eq_eq.mp hbc1))
      simp only [hbc1] at h2
      simp only [hac]
      rcases hab2 : compare a2 b2 with _ | _ | _
      · rcases hbc2 : compare b2 c2 with _ | _ | _
        · have hac2 : compare a2 c2 = Ordering.lt :=
            Nat.compare_eq_lt.mpr
              (Nat.lt_trans (Nat.compare_eq_lt.mp hab2) (Nat.compare_eq_lt.mp hbc2))
          simp [hac2]
        · have hac2 : compare a2 c2 = Ordering.lt := by
            rw [← Nat.compare_eq_eq.mp hbc2]
            exact hab2
          simp [hac2]
        · simp [hbc2] at h2
      · have e2 : a2 = b2 := Nat.compare_eq_eq.mp hab2
        simp only [hab2] at h1
        rcases hbc2 : compare b2 c2 with _ | _ | _
        · have hac2 : compare a2 c2 = Ordering.lt := by
            rw [e2]
            exact hbc2
          simp [hac2]
        · have hac2 : compare a2 c2 = Ordering.eq :=
            Nat.compare_eq_eq.mpr (e2.trans (Nat.compare_eq_eq.mp hbc2))
          simp only [hbc2] at h2
          simp only [hac2]
          rcases hab3 : compare a3 b3 with _ | _ | _
          · rcases hbc3 : compare b3 c3 with _ | _ | _
            · have hac3 : compare a3 c3 = Ordering.lt :=
                Nat.compare_eq_lt.mpr
                  (Nat.lt_trans (Nat.compare_eq_lt.mp hab3) (Nat.compare_eq_lt.mp hbc3))
              simp [hac3]
            · have hac3 : compare a3 c3 = Ordering.lt := by
                rw [← Nat.compare_eq_eq.mp hbc3]
                exact hab3
              simp [hac3]
            · simp [hbc3] at h2
          · have e3 : a3 = b3 := Nat.compare_eq_eq.mp hab3
            simp only [hab3] at h1
            rcases hbc3 : compare b3 c3 with _ | _ | _
            · have hac3 : compare a3 c3 = Ordering.lt := by
                rw [e3]
                exact hbc3
              simp [hac3]
            · have hac3 : compare a3 c3 = Ordering.eq :=
                Nat.compare_eq_eq.mpr (e3.trans (Nat.compare_eq_eq.mp hbc3))
              simp only [hbc3] at h2
              simp only [hac3]
              cases a4 with
              | nil =>
                cases b4 with
                | nil => simp at h1
                | cons y l2 => simp at h1
              | cons x l1 =>
                cases b4 with
                | nil =>
                  cases c4 with
                  | nil => simp at h2
                  | cons z l3 => simp at h2
                | cons y l2 =>
                  cases c4 with
                  | nil => rfl
                  | cons z l3 =>
                    have h1' : cmpPreList (x :: l1) (y :: l2) = .lt := h1
                    have h2' : cmpPreList (y :: l2) (z :: l3) = .lt := h2
                    exact cmpPreList_lt_trans h1' h2'
            · simp [hbc3] at h2
          · simp [hab3] at h1
        · simp [hbc2] at h2
      · simp [hab2] at h1
    · simp [hbc1] at h2
  · simp [hab1] at h1

/-- `semverLtB` is the boolean below-test of the comparison. -/
theorem semverLtB_eq_true_iff {a b : SemVer} :
    semverLtB a b = true ↔ compareSemVer a b = .lt := by
  unfold semverLtB
  rcases h : compareSemVer a b with _ | _ | _ <;> simp [h]

/-- No version is semver-below itself. -/
theorem semverLtB_irrefl (a : SemVer) : semverLtB a a = false := by
  unfold semverLtB
  rw [compareSemVer_self]

/-- The semver below-test is transitive. -/
theorem semverLtB_trans {a b c : SemVer} (h1 : semverLtB a b = true)
    (h2 : semverLtB b c = true) : semverLtB a c = true := by
  rw [semverLtB_eq_true_iff] at h1 h2 ⊢
  exact compareSemVer_lt_trans h1 h2

/-- When `u` is not semver-below `c`, either they are equal or `c` is
semver-below `u`. -/
theorem semverLtB_false_cases {u c : SemVer} (h : semverLtB u c = false) :
    u = c ∨ semverLtB c u = true := by
  rcases hc : compareSemVer u c with _ | _ | _
  · exact absurd (semverLtB_eq_true_iff.mpr hc) (by simp [h])
  · exact .inl (compareSemVer_eq hc)
  · refine .inr (semverLtB_eq_true_iff.mpr ?_)
    rw [← compareSemVer_swap, hc]
    rfl

/-- The result of the iterated semver maximum is the initial value or one of
the listed versions. -/
theorem semverMaxList_mem : ∀ (cs : List SemVer) (acc : Option SemVer) (v : SemVer),
    semverMaxList acc cs = some v → acc = some v ∨ v ∈ cs
  | [], acc, v, h => by
      cases acc with
      | none => simp [semverMaxList] at h
      | some w => exact .inl h
  | c :: rest, none, v, h => by
      have h2 : semverMaxList (some c) rest = some v := h
      rcases semverMaxList_mem rest (some c) v h2 with h' | h'
      · rw [Option.some.injEq] at h'
        refine .inr ?_
        rw [← h']
        exact List.mem_cons_self c rest
      · exact .inr (List.mem_cons_of_mem c h')
  | c :: rest, some w, v, h => by
      have h2 : semverMaxList (some (semverMax w c)) rest = some v := h
      rcases semverMaxList_mem rest (some (semverMax w c)) v h2 with h' | h'
      · rw [Option.some.injEq] at h'
        unfold semverMax at h'
        by_cases hwc : semverLtB w c = true
        · rw [if_pos hwc] at h'
          refine .inr ?_
          rw [← h']
          exact List.mem_cons_self c rest
        · rw [if_neg hwc] at h'
          exact .inl (by rw [h'])
      · exact .inr (List.mem_cons_of_mem c h')

/-- The result of the iterated semver maximum is semver-below neither the
initial value nor any listed version. -/
theorem semverMaxList_ub : ∀ (cs : List SemVer) (acc : Option SemVer) (v : SemVer),
    semverMaxList acc cs = some v →
    (∀ w, acc = some w → semverLtB v w = false) ∧
    (∀ w, w ∈ cs → semverLtB v w = false)
  | [], acc, v, h => by
      have h' : acc = some v := by
        cases acc with
        | none => simp [semverMaxList] at h
        | some w => exact h
      refine ⟨?_, fun w hw => absurd hw (List.not_mem_nil w)⟩
      intro w hw
      rw [hw, Option.some.injEq] at h'
      rw [h']
      exact semverLtB_irrefl v
  | c :: rest, none, v, h => by
      have h2 : semverMaxList (some c) rest = some v := h
      have hrec := semverMaxList_ub rest (some c) v h2
      refine ⟨fun w hw => absurd hw (by simp), ?_⟩
      intro w hw
      rcases List.mem_cons.mp hw with rfl | hw'
      · exact hrec.1 w rfl
      · exact hrec.2 w hw'
  | c :: rest, some u, v, h => by
      have h2 : semverMaxList (some (semverMax u c)) rest = some v := h
      have hrec := semverMaxList_ub rest (some (semverMax u c)) v h2
      have hmax : semverLtB v (semverMax u c) = false := hrec.1 _ rfl
      have hvu : semverLtB v u = false ∧ semverLtB v c = false := by
        unfold semverMax at hmax
        by_cases huc : semverLtB u c = true
        · rw [if_pos huc] at hmax
          refine ⟨?_, hmax⟩
          cases hb : semverLtB v u with
          | false => rfl
          | true => exact absurd (semverLtB_trans hb huc) (by simp [hmax])
        · rw [if_neg huc] at hmax
          refine ⟨hmax, ?_⟩
          have huc' : semverLtB u c = false := by
            cases hb : semverLtB u c with
            | false => rfl
            | true => exact absurd hb huc
          rcases semverLtB_false_cases huc' with rfl | hcu
          · exact hmax
          · cases hb : semverLtB v c with
            | false => rfl
            | true => exact absurd (semverLtB_trans hb hcu) (by simp [hmax])
      refine ⟨?_, ?_⟩
      · intro w hw
        rw [Option.some.injEq] at hw
        rw [← hw]
        exact hvu.1
      · intro w hw
        rcases List.mem_cons.mp hw with rfl | hw'
        · exact hvu.2
        · exact hrec.2 w hw'

/-- Looking a package up in a ledger with a head entry. -/
theorem ledgerGet_cons (r : String) (w : SemVer) (tl : Ledger) (p : String) :
    ledgerGet ((r, w) :: tl) p = if r == p then some w else ledgerGet tl p := by
  cases h : (r == p) <;> simp [ledgerGet, List.find?, h]

/-- Inserting a candidate for `p` updates `p`'s entry to the semver maximum
of the old and new candidates. -/
theorem ledgerGet_insertMax_self : ∀ (L : Ledger) (p : String) (v : SemVer),
    ledgerGet (ledgerInsertMax L p v) p =
      (match ledgerGet L p with
       | none => some v
       | some w => some (semverMax w v))
  | [], p, v => by
      simp [ledgerInsertMax, ledgerGet_cons, ledgerGet, List.find?]
  | (r, w) :: tl, p, v => by
      simp only [ledgerInsertMax]
      by_cases hrp : (r == p) = true
      · rw [if_pos hrp]
        rw [ledgerGet_cons, ledgerGet_cons]
        rw [if_pos hrp, if_pos hrp]
      · rw [if_neg hrp]
        rw [ledgerGet_cons, ledgerGet_cons]
        rw [if_neg hrp, if_neg hrp]
        exact ledgerGet_insertMax_self tl p v

/-- Inserting a candidate for another package leaves `p`'s entry unchanged. -/
theorem ledgerGet_insertMax_other : ∀ (L : Ledger) (q p : String) (v : SemVer),
    (q == p) = false →
    ledgerGet (ledgerInsertMax L q v) p = ledgerGet L p
  | [], q, p, v, h => by
      rw [ledgerInsertMax, ledgerGet_cons, h]
      simp [ledgerGet, List.find?]
  | (r, w) :: tl, q, p, v, h => by
      simp only [ledgerInsertMax]
      by_cases hrq : (r == q) = true
      · rw [if_pos hrq]
        rw [ledgerGet_cons, ledgerGet_cons]
        have hrp : (r == p) = false := by
          rw [eq_of_beq hrq]
          exact h
        rw [if_neg (by simp [hrp]), if_neg (by simp [hrp])]
      · rw [if_neg hrq]
        rw [ledgerGet_cons, ledgerGet_cons]
        by_cases hrp : (r == p) = true
        · rw [if_pos hrp, if_pos hrp]
        · rw [if_neg hrp, if_neg hrp]
          exact ledgerGet_insertMax_other tl q p v h

/-- Folding record entries into a ledger computes, per package, the iterated
semver maximum of that package's candidates on top of its initial entry. -/
theorem resolveEntries_get (f : String → Option String) (entries : List (String × String))
    (L : Ledger) (p : String) :
    ∀ L0 : Ledger, resolveEntries f L0 entries = .ok L →
    ledgerGet L p = semverMaxList (ledgerGet L0 p) (candidatesOf f entries p) := by
  induction entries with
  | nil =>
    intro L0 h
    simp only [resolveEntries] at h
    injection h with h
    subst h
    cases hL : ledgerGet L0 p with
    | none => rfl
    | some w => rfl
  | cons e rest ih =>
    intro L0 h
    simp only [resolveEntries] at h
    cases hre : resolveEntry f L0 e with
    | error err => rw [hre] at h; exact absurd h (by simp)
    | ok L2 =>
      simp only [hre] at h
      have ihh := ih L2 h
      unfold resolveEntry at hre
      by_cases hskip :
          (e.snd == decisionStr Decision.decline || e.snd == decisionStr Decision.undecided) = true
      · rw [if_pos hskip] at hre
        injection hre with hre
        subst hre
        have hcand : candidatesOf f (e :: rest) p = candidatesOf f rest p := by
          unfold candidatesOf entryCandidate
          rw [List.filterMap_cons]
          rw [if_pos hskip]
          cases hfp : (e.fst == p) <;> simp [hfp]
        rw [ihh, hcand]
      · rw [if_neg hskip] at hre
        cases happ : applyStrategy (f e.fst) e.snd with
        | error err => rw [happ] at hre; exact absurd hre (by simp)
        | ok v =>
          simp only [happ] at hre
          injection hre with hre
          subst hre
          by_cases hfp : (e.fst == p) = true
          · have hcand : candidatesOf f (e :: rest) p = v :: candidatesOf f rest p := by
              unfold candidatesOf entryCandidate
              rw [List.filterMap_cons]
              rw [if_pos hfp, if_neg hskip, happ]
            rw [ihh, hcand]
            have hfp' : e.fst = p := eq_of_beq hfp
            rw [hfp', ledgerGet_insertMax_self]
            cases hL0 : ledgerGet L0 p with
            | none => rfl
            | some w => rfl
          · have hfpf : (e.fst == p) = false := by
              cases hb : (e.fst == p) with
              | false => rfl
              | true => exact absurd hb hfp
            have hcand : candidatesOf f (e :: rest) p = candidatesOf f rest p := by
              unfold candidatesOf entryCandidate
              rw [List.filterMap_cons]
              rw [hfpf]
              simp
            rw [ihh, hcand, ledgerGet_insertMax_other L0 e.fst p v hfpf]

/-- C2: for every project state — any number of pending records, with any
other entries alongside — a successfully merged ledger maps each package to
the iterated semver maximum of every candidate version the records
contribute for it; that resolved version is itself one of the candidates and
no candidate is semver-greater, so for a package appearing in more than one
record the maximum candidate under semantic-version ordering is kept — never
merely the first-seen or last-seen one. -/
theorem resolve_keeps_max (records : List (List (String × String)))
    (lookupCurrent : String → Option String) (L : Ledger) (p : String)
    (h : resolveVersionFiles records lookupCurrent = .ok L) :
    ledgerGet L p = semverMaxList none (candidatesOf lookupCurrent records.flatten p) ∧
    (∀ v, ledgerGet L p = some v →
      v ∈ candidatesOf lookupCurrent records.flatten p ∧
      ∀ w, w ∈ candidatesOf lookupCurrent records.flatten p → semverLtB v w = false) := by
  have hfold := resolveEntries_get lookupCurrent records.flatten L p [] h
  have h0 : ledgerGet ([] : Ledger) p = none := rfl
  rw [h0] at hfold
  refine ⟨hfold, ?_⟩
  intro v hv
  rw [hv] at hfold
  constructor
  · rcases semverMaxList_mem _ none v hfold.symm with h' | h'
    · simp at h'
    · exact h'
  · intro w hw
    exact (semverMaxList_ub _ none v hfold.symm).2 w hw

/-- C2 witness: the spec's own scenario — records declaring `minor` and
`patch` for the same package at current version `1.0.0` merge to `1.1.0`,
the higher candidate, in either record order and with another package's
entry alongside. -/
theorem resolve_keeps_max_witness :
    resolveVersionFiles [[("P", "minor"), ("Q", "major")], [("P", "patch")]]
      (fun _ => some "1.0.0") = .ok [("P", ⟨1, 1, 0, []⟩), ("Q", ⟨2, 0, 0, []⟩)] ∧
    candidatesOf (fun _ => some "1.0.0")
      [[("P", "minor"), ("Q", "major")], [("P", "patch")]].flatten "P" =
      [⟨1, 1, 0, []⟩, ⟨1, 0, 1, []⟩] ∧
    ledgerGet [("P", ⟨1, 1, 0, []⟩), ("Q", ⟨2, 0, 0, []⟩)] "P" =
      semverMaxList none (candidatesOf (fun _ => some "1.0.0")
        [[("P", "minor"), ("Q", "major")], [("P", "patch")]].flatten "P") ∧
    ((⟨1, 1, 0, []⟩ : SemVer) ∈ candidatesOf (fun _ => some "1.0.0")
        [[("P", "minor"), ("Q", "major")], [("P", "patch")]].flatten "P" ∧
      ∀ w, w ∈ candidatesOf (fun _ => some "1.0.0")
        [[("P", "minor"), ("Q", "major")], [("P", "patch")]].flatten "P" →
        semverLtB ⟨1, 1, 0, []⟩ w = false) ∧
    resolveVersionFiles [[("P", "patch")], [("P", "minor")]] (fun _ => some "1.0.0") =
      .ok [("P", ⟨1, 1, 0, []⟩)] ∧
    ledgerGet [("P", ⟨1, 1, 0, []⟩)] "P" =
      semverMaxList none (candidatesOf (fun _ => some "1.0.0")
        [[("P", "patch")], [("P", "minor")]].flatten "P") :=
  ⟨by decide, by decide,
   (resolve_keeps_max [[("P", "minor"), ("Q", "major")], [("P", "patch")]]
      (fun _ => some "1.0.0") [("P", ⟨1, 1, 0, []⟩), ("Q", ⟨2, 0, 0, []⟩)] "P" (by decide)).1,
   (resolve_keeps_max [[("P", "minor"), ("Q", "major")], [("P", "patch")]]
      (fun _ => some "1.0.0") [("P", ⟨1, 1, 0, []⟩), ("Q", ⟨2, 0, 0, []⟩)] "P"
      (by decide)).2 ⟨1, 1, 0, []⟩ (by decide),
   by decide,
   (resolve_keeps_max [[("P", "patch")], [("P", "minor")]]
      (fun _ => some "1.0.0") [("P", ⟨1, 1, 0, []⟩)] "P" (by decide)).1⟩

/-- C3 (counterexample): `decline` is one of the enumerated tokens and is not
a semver version, yet an invocation with a null manifest version and strategy
`decline` succeeds — a record is opened, written and saved — instead of
failing with the invalid-bump error. -/
theorem null_version_decline_accepted_cex :
    ExecEnv.lookupCurrent ⟨false, [], (fun _ => none), "P"⟩ "P" = none ∧
    "decline" ∈ acceptedStrategies ∧
    parseSemVer "decline" = none ∧
    execute ⟨false, [], (fun _ => none), "P"⟩ "decline" false false =
      .ok ⟨"decline", false,
        [Ev.openRecord, Ev.setStrategy "P" "decline", Ev.saveAll, Ev.runApply]⟩ :=
  ⟨rfl, by decide, by decide, by decide⟩

/-- C3 (amended): an invocation whose workspace manifest version is null and
whose strategy is one of the enumerated tokens other than `decline` fails
with the invalid-bump `UsageError`, before any record is opened or written. -/
theorem null_version_token_rejected (env : ExecEnv) (s : String) (d i : Bool)
    (h0 : env.lookupCurrent env.wsId = none)
    (h1 : s ∈ acceptedStrategies) (h2 : s ≠ "decline") :
    execute env s d i = .error .cantBumpNoVersion := by
  apply execute_error_of_computeErr
  rw [h0]
  rw [acceptedStrategies_eq] at h1
  simp only [List.mem_cons, List.not_mem_nil, or_false] at h1
  rcases h1 with rfl | rfl | rfl | rfl | rfl | rfl | rfl | rfl
  · exact absurd rfl h2
  all_goals decide

/-- C3 (amended) witness: a null manifest version with strategy `major` is
rejected with the invalid-bump error. -/
theorem null_version_token_rejected_witness :
    ExecEnv.lookupCurrent ⟨false, [], (fun _ => none), "P"⟩ "P" = none ∧
    "major" ∈ acceptedStrategies ∧
    execute ⟨false, [], (fun _ => none), "P"⟩ "major" false false =
      .error .cantBumpNoVersion :=
  ⟨rfl, by decide,
   null_version_token_rejected ⟨false, [], (fun _ => none), "P"⟩ "major" false false
     rfl (by decide) (by decide)⟩

/-- Strategy resolution of a non-semver, non-`decline` strategy against an
unparseable current version yields the invalid-version `UsageError`. -/
theorem computeRS_invalid_current (cur s : String)
    (hs : (parseSemVer s).isSome = false) (hd : (s == "decline") = false)
    (hcur : (parseSemVer cur).isSome = false) :
    computeReleaseStrategy (some cur) s = .error (.cantBumpInvalidSemver cur) := by
  unfold computeReleaseStrategy
  simp only [decisionStr]
  rw [hs, hd, hcur]
  simp

/-- C10: an invocation whose strategy is an enumerated token other than
`decline` and whose manifest version is non-null but not valid semver fails
with a `UsageError` identifying the invalid current version, before any
record is opened or written; the `decline` strategy resolves successfully
whatever the current version, so it is exempt from both the null-version and
the invalid-version checks. -/
theorem invalid_current_version_rejected :
    (∀ (env : ExecEnv) (s : String) (d i : Bool) (cur : String),
      env.lookupCurrent env.wsId = some cur →
      (parseSemVer cur).isSome = false →
      s ∈ acceptedStrategies → s ≠ "decline" →
      execute env s d i = .error (.cantBumpInvalidSemver cur)) ∧
    (∀ current : Option String,
      computeReleaseStrategy current "decline" = .ok "decline") := by
  constructor
  · intro env s d i cur h0 hcur h1 h2
    apply execute_error_of_computeErr
    rw [h0]
    rw [acceptedStrategies_eq] at h1
    simp only [List.mem_cons, List.not_mem_nil, or_false] at h1
    rcases h1 with rfl | rfl | rfl | rfl | rfl | rfl | rfl | rfl
    · exact absurd rfl h2
    all_goals exact computeRS_invalid_current cur _ (by decide) (by decide) hcur
  · intro current
    unfold computeReleaseStrategy
    have hs : (parseSemVer "decline").isSome = false := by decide
    have hd : ("decline" == decisionStr Decision.decline) = true := by decide
    rw [hs, hd]
    simp

/-- C10 witness: strategy `minor` against the unparseable current version
`bogus` is rejected naming that version; `decline` resolves successfully
against the same invalid version and against a null one. -/
theorem invalid_current_version_rejected_witness :
    execute ⟨false, [], (fun _ => some "bogus"), "P"⟩ "minor" false false =
      .error (.cantBumpInvalidSemver "bogus") ∧
    computeReleaseStrategy (some "bogus") "decline" = .ok "decline" ∧
    computeReleaseStrategy none "decline" = .ok "decline" :=
  ⟨invalid_current_version_rejected.1 ⟨false, [], (fun _ => some "bogus"), "P"⟩ "minor"
      false false "bogus" rfl (by decide) (by decide) (by decide),
   invalid_current_version_rejected.2 (some "bogus"),
   invalid_current_version_rejected.2 none⟩

end Berry
